import Mathlib

/-!
Verification of the odds-analysis engine in `odds_ev/core.py`.

The Python code is shallowly embedded: Python floats are modelled as
rationals (ℚ), Python exceptions (`ValueError`, `ZeroDivisionError`) as
`Option`/`none`, Python dicts keyed by strings as insertion-ordered
association lists, and Python's builtin `round(x)` / `round(x, 2)`
(round-half-to-even) as `pyRound` / `round2` below.  Every definition
follows the corresponding source function line by line.
-/

/-- Python's builtin `round(x)` on an exact value: round half to even. -/
def pyRound (q : ℚ) : ℚ :=
  let f : ℤ := ⌊q⌋
  let r : ℚ := q - (f : ℚ)
  if r < 1/2 then (f : ℚ)
  else if r > 1/2 then ((f + 1 : ℤ) : ℚ)
  else if f % 2 = 0 then (f : ℚ) else ((f + 1 : ℤ) : ℚ)

/-- Python's `round(x, 2)`: round to two decimal places, half to even. -/
def round2 (q : ℚ) : ℚ := pyRound (100 * q) / 100

/-- Python's `math.isclose(a, b, abs_tol=tol)`: the default relative
tolerance `1e-09` still applies, the comparison is
`|a-b| <= max(rel_tol * max(|a|,|b|), abs_tol)`. -/
def pyIsClose (a b tol : ℚ) : Bool :=
  |a - b| ≤ max ((1 / 1000000000) * max |a| |b|) tol

/-- Embeds `american_to_implied_prob` (core.py lines 43-47).  The function
is total: no branch of the Python body can raise, and at `odds = 0` the
second branch returns `-0/(-0+100) = 0`. -/
def american_to_implied_prob (odds : ℚ) : ℚ :=
  if odds > 0 then 100 / (odds + 100) else -odds / (-odds + 100)

/-- Embeds `american_to_decimal` (core.py lines 50-54).  At `odds = 0` the
Python expression `100.0 / -odds` raises `ZeroDivisionError`, modelled as
`none`. -/
def american_to_decimal (odds : ℚ) : Option ℚ :=
  if odds > 0 then some (1 + odds / 100)
  else if odds = 0 then none
  else some (1 + 100 / -odds)

/-- Embeds `probability_to_american` (core.py lines 57-63).  The
`ValueError` raised for `prob <= 0 or prob >= 1` is modelled as `none`;
`round(x, 0)` is Python bankers rounding, returning a float. -/
def probability_to_american (prob : ℚ) : Option ℚ :=
  if prob ≤ 0 ∨ prob ≥ 1 then none
  else if prob < 1/2 then some (pyRound ((100 * (1 - prob)) / prob))
  else some (pyRound ((-100 * prob) / (1 - prob)))

/-- Embeds `vig_free_probabilities` (core.py lines 66-71).  The division
by `total` raises `ZeroDivisionError` when `total = 0`, modelled as
`none`.

-/
def vig_free_probabilities (price_a price_b : ℚ) : Option (ℚ × ℚ) :=
  let p_a := american_to_implied_prob price_a
  let p_b := american_to_implied_prob price_b
  let total := p_a + p_b
  if total = 0 then none
  else some (p_a / total, p_b / total)

/-- Embeds `expected_value` (core.py lines 74-80).  At `odds = 0` the
Python expression `100.0 / -odds` raises `ZeroDivisionError`, modelled as
`none`. -/
def expected_value (true_prob odds stake : ℚ) : Option ℚ :=
  if odds > 0 then some (true_prob * (stake * (odds / 100)) - (1 - true_prob) * stake)
  else if odds = 0 then none
  else some (true_prob * (stake * (100 / -odds)) - (1 - true_prob) * stake)

/-- Embeds `kelly_fraction` (core.py lines 83-92).  The call to
`american_to_decimal` propagates the `ZeroDivisionError` at `odds = 0`. -/
def kelly_fraction (true_prob odds : ℚ) : Option ℚ :=
  match american_to_decimal odds with
  | none => none
  | some decimal_odds =>
    let b := decimal_odds - 1
    if b ≤ 0 then some 0
    else some (max 0 ((b * true_prob - (1 - true_prob)) / b))

/-! Embedding of the consensus builder (core.py lines 279-430).  Raw
provider JSON is modelled by typed structures: a missing or non-numeric
`price`/`point` field is `none`, a missing team name is `none`. -/

/-- One outcome record of a bookmaker market, as returned by the odds
provider. -/
structure ApiOutcome where
  name : String
  price : Option ℚ
  point : Option ℚ
deriving Repr, DecidableEq

/-- One market record of a bookmaker. -/
structure ApiMarket where
  key : String
  outcomes : List ApiOutcome
deriving Repr, DecidableEq

/-- One bookmaker record of an event. -/
structure ApiBookmaker where
  key : String
  markets : List ApiMarket
deriving Repr, DecidableEq

/-- An event object from the odds provider. -/
structure ApiEvent where
  home_team : Option String
  away_team : Option String
  bookmakers : List ApiBookmaker
deriving Repr, DecidableEq

/-- The dict `entry` built in `compute_sharp_consensus`: the bookmaker
together with its market record for the requested market key. -/
abbrev MarketEntry := ApiBookmaker × ApiMarket

/-- The fixed sharp-book set `SHARP_BOOKS` (core.py line 17). -/
def SHARP_BOOKS : List String := ["pinnacle", "bookmaker", "circasports"]

/-- Python's `str.lower`, character by character. -/
def strLower (s : String) : String := String.mk (s.data.map Char.toLower)

/-- Python's `str.startswith`. -/
def strStartsWith (s pre : String) : Bool := List.isPrefixOf pre.data s.data

/-- Embeds `_canonicalize_team` (core.py lines 95-96):
`re.sub(r"[^a-z]", "", name.lower())`. -/
def canonicalize_team (name : String) : String :=
  String.mk ((strLower name).data.filter (fun c => 'a' ≤ c && c ≤ 'z'))

/-- The inner loop of `compute_sharp_consensus` (core.py lines 322-328):
the first market of the bookmaker whose key matches the requested one. -/
def find_market (b : ApiBookmaker) (market : String) : Option ApiMarket :=
  b.markets.find? (fun m => m.key == market)

/-- The list `market_list` (core.py lines 320-334): one entry per
bookmaker carrying the requested market. -/
def market_list (event : ApiEvent) (market : String) : List MarketEntry :=
  event.bookmakers.filterMap (fun b => (find_market b market).map (fun m => (b, m)))

/-- The list `sharp_markets` (core.py lines 335-336): entries whose
bookmaker key is in `SHARP_BOOKS`. -/
def sharp_markets (event : ApiEvent) (market : String) : List MarketEntry :=
  (market_list event market).filter (fun e => SHARP_BOOKS.contains e.1.key)

/-- The first-outcome points of sharp entries, rounded to 2 decimals
(core.py lines 343-351): entries with no outcomes or a non-numeric point
contribute nothing. -/
def sharp_points (sharp : List MarketEntry) : List ℚ :=
  sharp.filterMap (fun e =>
    match e.2.outcomes with
    | [] => none
    | o :: _ => o.point.map round2)

/-- Python's `Counter(pts).most_common(1)[0][0]` (core.py line 353): the
most frequent value; `most_common` sorts by count with a stable sort over
first-insertion order, so ties go to the first-encountered value.  The
fold keeps the current best and replaces it only on a strictly greater
count, which selects exactly the first-encountered maximal value. -/
def most_common_first (pts : List ℚ) : Option ℚ :=
  pts.foldl (fun best x =>
    match best with
    | none => some x
    | some b => if pts.count x > pts.count b then some x else best) none

/-- The `consensus_point` computation (core.py lines 341-353): only for
`spreads`/`totals` markets, `none` when no sharp entry has a numeric
first-outcome point. -/
def compute_consensus_point (market : String) (sharp : List MarketEntry) : Option ℚ :=
  if market == "spreads" || market == "totals" then
    most_common_first (sharp_points sharp)
  else none

/-- Embeds `include_entry` (core.py lines 358-367): with no consensus
point every entry qualifies; otherwise the entry needs a first outcome
with a point `math.isclose` to the consensus point with `abs_tol=0.05`. -/
def include_entry (consensus_point : Option ℚ) (e : MarketEntry) : Bool :=
  match consensus_point with
  | none => true
  | some cp =>
    match e.2.outcomes with
    | [] => false
    | o :: _ =>
      match o.point with
      | none => false
      | some p => pyIsClose p cp (1/20)

/-- Embeds `filtered_entries` with its fallback (core.py lines 369-371):
if the point filter eliminates every sharp entry, all sharp entries are
used unfiltered. -/
def filtered_entries (consensus_point : Option ℚ) (sharp : List MarketEntry) :
    List MarketEntry :=
  let f := sharp.filter (include_entry consensus_point)
  if f.isEmpty then sharp else f

/-- Python's `dict.setdefault(name, []).append(value)` on an
insertion-ordered dict modelled as an association list. -/
def alist_append (d : List (String × List ℚ)) (k : String) (v : ℚ) :
    List (String × List ℚ) :=
  if d.any (fun kv => kv.1 == k) then
    d.map (fun kv => if kv.1 == k then (kv.1, kv.2 ++ [v]) else kv)
  else d ++ [(k, [v])]

/-- The accumulation loop filling `outcome_prices` and `outcome_points`
(core.py lines 373-387): outcomes with a missing or non-numeric price are
skipped entirely; a numeric point is recorded only alongside a valid
price. -/
def collect_outcome_data (entries : List MarketEntry) :
    List (String × List ℚ) × List (String × List ℚ) :=
  entries.foldl (fun acc e =>
    e.2.outcomes.foldl (fun acc2 o =>
      match o.price with
      | none => acc2
      | some pv =>
        let prices := alist_append acc2.1 o.name pv
        let points :=
          match o.point with
          | some pt => alist_append acc2.2 o.name pt
          | none => acc2.2
        (prices, points)) acc) ([], [])

/-- Embeds `determine_outcome_order` (core.py lines 279-310). -/
def determine_outcome_order (event : ApiEvent) (market : String)
    (outcome_names : List String) : List String :=
  let names := outcome_names
  if names.isEmpty then []
  else if market == "totals" then
    let preferred := ["over", "under"].foldl (fun pref key =>
      match names.find? (fun n => strStartsWith (strLower n) key) with
      | some n => pref ++ [n]
      | none => pref) []
    let preferred2 := names.foldl (fun pref n =>
      if pref.contains n then pref else pref ++ [n]) preferred
    preferred2.take 2
  else
    let order := [event.away_team, event.home_team].foldl (fun ord t =>
      match t with
      | none => ord
      | some team =>
        let ct := canonicalize_team team
        match names.find? (fun n => canonicalize_team n == ct && !(ord.contains n)) with
        | some n => ord ++ [n]
        | none => ord) []
    let order2 := names.foldl (fun ord n =>
      if ord.contains n then ord else ord ++ [n]) order
    order2.take 2

/-- One aggregated outcome of the consensus (core.py lines 406-412 and
418-423): name, mean sharp price, reconciled point, vig-free probability
and the American fair price (absent when `probability_to_american`
raises). -/
structure ConsensusOutcome where
  name : String
  avg_price : ℚ
  point : Option ℚ
  true_prob : ℚ
  fair_price : Option ℚ
deriving Repr, DecidableEq

/-- The dict returned by `compute_sharp_consensus` (core.py lines
425-430). -/
structure Consensus where
  market : String
  outcomes : List ConsensusOutcome
  consensus_point : Option ℚ
  bookmakers : List MarketEntry
deriving Repr, DecidableEq

/-- The loop over `order[:2]` building `consensus_outcomes` and
`avg_prices` (core.py lines 396-412): names without collected prices are
skipped; the point is the mean of collected points, defaulting to the
consensus point. -/
def consensus_pre (outcome_prices outcome_points : List (String × List ℚ))
    (consensus_point : Option ℚ) (order : List String) :
    List (String × ℚ × Option ℚ) :=
  order.filterMap (fun name =>
    match outcome_prices.find? (fun kv => kv.1 == name) with
    | none => none
    | some kv =>
      match kv.2 with
      | [] => none
      | prices =>
        let avg_price := prices.sum / (prices.length : ℚ)
        let points := ((outcome_points.find? (fun kv2 => kv2.1 == name)).map Prod.snd).getD []
        let point_value :=
          if points.isEmpty then consensus_point
          else some (points.sum / (points.length : ℚ))
        some (name, avg_price, point_value))

/-- The final stage of `compute_sharp_consensus` (core.py lines 414-430):
requires exactly two aggregated outcomes, applies
`vig_free_probabilities` to the two average prices (propagating its
division-by-zero as `none`) and attaches `true_prob` and `fair_price`. -/
def build_consensus (market : String) (consensus_point : Option ℚ)
    (mlist : List MarketEntry) (pre : List (String × ℚ × Option ℚ)) :
    Option Consensus :=
  match pre with
  | [a, b] =>
    match vig_free_probabilities a.2.1 b.2.1 with
    | none => none
    | some (prob_a, prob_b) =>
      some (Consensus.mk market
        [ConsensusOutcome.mk a.1 a.2.1 a.2.2 prob_a (probability_to_american prob_a),
         ConsensusOutcome.mk b.1 b.2.1 b.2.2 prob_b (probability_to_american prob_b)]
        consensus_point mlist)
  | _ => none

/-- Embeds `compute_sharp_consensus` (core.py lines 313-430).  Every
`raise` in the source (`no sharp data`, `not enough outcome data`,
`insufficient data after computing`) is modelled as `none`. -/
def compute_sharp_consensus (event : ApiEvent) (market : String) : Option Consensus :=
  let sharp := sharp_markets event market
  if sharp.isEmpty then none
  else
    let consensus_point := compute_consensus_point market sharp
    let entries := filtered_entries consensus_point sharp
    let data := collect_outcome_data entries
    let outcome_prices := data.1
    let outcome_points := data.2
    if outcome_prices.length < 2 then none
    else
      let names := outcome_prices.map Prod.fst
      let order0 := determine_outcome_order event market names
      let order := if order0.length < 2 then names.take 2 else order0
      let pre := consensus_pre outcome_prices outcome_points consensus_point (order.take 2)
      build_consensus market consensus_point (market_list event market) pre

/-! Embedding of the line matcher and analyzer (core.py lines 30-41 and
433-529). -/

/-- Embeds the `UserLine` dataclass (core.py lines 30-41). -/
structure UserLine where
  label : String
  odds : ℚ
  point : Option ℚ
  raw_source : Option String
deriving Repr, DecidableEq

/-- Naive substring test on character lists: Python's `needle in
haystack`. -/
def listContainsSub (needle : List Char) : List Char → Bool
  | [] => needle.isEmpty
  | c :: rest => needle.isPrefixOf (c :: rest) || listContainsSub needle rest

/-- Python's `needle in haystack` on strings. -/
def strContains (haystack needle : String) : Bool :=
  listContainsSub needle.data haystack.data

/-- A single-quote character, used inside warning messages. -/
def squote : String := String.mk [Char.ofNat 39]

/-- The warning appended for an unmatched line (core.py lines 483-485). -/
def unmatched_warning (label : String) : String :=
  "Could not match " ++ squote ++ label ++ squote ++
    " to a market outcome; please adjust the label."

/-- The warning appended when the line point differs from the consensus
point by more than 0.25 (core.py lines 523-525); numeric formatting is
not reproduced character by character. -/
def point_warning (label : String) (p cp : ℚ) : String :=
  "Line " ++ squote ++ label ++ squote ++ " uses point " ++ toString p ++
    ", which differs from the consensus " ++ toString cp ++ "."

/-- Embeds `match_line_to_outcome` (core.py lines 433-454). -/
def match_line_to_outcome (line : UserLine) (outcomes : List ConsensusOutcome)
    (market : String) : Option ConsensusOutcome × String :=
  let keyword : Option (ConsensusOutcome × String) :=
    if market == "totals" then
      let label := strLower line.label
      let over_hit :=
        if strContains label "over" then
          outcomes.find? (fun o => strStartsWith (strLower o.name) "over")
        else none
      match over_hit with
      | some o => some (o, "matched by keyword")
      | none =>
        let under_hit :=
          if strContains label "under" then
            outcomes.find? (fun o => strStartsWith (strLower o.name) "under")
          else none
        match under_hit with
        | some o => some (o, "matched by keyword")
        | none => none
    else none
  match keyword with
  | some (o, r) => (some o, r)
  | none =>
    let canonical_label := canonicalize_team line.label
    if canonical_label.isEmpty then (none, "no match")
    else
      match outcomes.find? (fun o => canonicalize_team o.name == canonical_label) with
      | some o => (some o, "matched by name")
      | none =>
        match outcomes.find? (fun o =>
            strContains (canonicalize_team o.name) canonical_label) with
        | some o => (some o, "matched by partial name")
        | none => (none, "no match")

/-- One entry of the result list of `analyze_user_lines`: the Python dicts
built at core.py lines 486-493 (unmatched) and 503-517 (matched); the
`user_point` key is present exactly when the line carries a point. -/
inductive AnalysisResult where
  | unmatched (label : String) (odds : ℚ) (message : String)
  | matched (label : String) (odds : ℚ) (matched_outcome : String) (true_prob : ℚ)
      (fair_price : Option ℚ) (expected_value : ℚ) (kelly_fraction : ℚ)
      (recommended_fraction : ℚ) (recommended_bet : ℚ) (consensus_price : ℚ)
      (consensus_point : Option ℚ) (match_reason : String) (user_point : Option ℚ)
deriving Repr, DecidableEq

/-- The first matching stage of the loop body (core.py lines 472-475): the
raw match, discarded when the outcome name was already claimed. -/
def first_stage_match (line : UserLine) (outcomes : List ConsensusOutcome)
    (market : String) (used_outcomes : List String) : Option ConsensusOutcome × String :=
  match match_line_to_outcome line outcomes market with
  | (some o, reason) =>
    if used_outcomes.contains o.name then (none, "outcome already matched")
    else (some o, reason)
  | (none, reason) => (none, reason)

/-- The outcome resolution of the loop body including the remaining-outcome
fallback (core.py lines 472-481): when the first stage yields nothing,
the batch has exactly 2 lines and exactly one outcome is unclaimed, that
outcome is assigned unconditionally. -/
def resolve_outcome (line : UserLine) (outcomes : List ConsensusOutcome)
    (market : String) (used_outcomes : List String) (total_lines : ℕ) :
    Option ConsensusOutcome × String :=
  match first_stage_match line outcomes market used_outcomes with
  | (some o, reason) => (some o, reason)
  | (none, reason) =>
    let remaining := outcomes.filter (fun o => !(used_outcomes.contains o.name))
    if remaining.length == 1 && total_lines == 2 then
      (remaining.head?, "assigned remaining outcome")
    else (none, reason)

/-- The point-mismatch check of the loop body (core.py lines 518-525): a
warning when the line carries a point, the consensus has one, and they
are not within `abs_tol=0.25` of each other. -/
def point_warnings_for (label : String) (point consensus_point : Option ℚ) :
    List String :=
  match point, consensus_point with
  | some p, some cpt =>
    if pyIsClose p cpt (1/4) then [] else [point_warning label p cpt]
  | _, _ => []

/-- The main loop of `analyze_user_lines` (core.py lines 471-526), with
the claimed-outcome set threaded through.  A `ZeroDivisionError` from
`expected_value`/`kelly_fraction` (line odds 0 on a matched line) aborts
the whole call (`none`). -/
def analyze_loop (outcomes : List ConsensusOutcome) (market : String)
    (consensus_point : Option ℚ) (stake bankroll fractional_kelly : ℚ)
    (total_lines : ℕ) :
    List UserLine → List String → Option (List AnalysisResult × List String)
  | [], _ => some ([], [])
  | line :: rest, used_outcomes =>
    match resolve_outcome line outcomes market used_outcomes total_lines with
    | (none, reason) =>
      match analyze_loop outcomes market consensus_point stake bankroll fractional_kelly
          total_lines rest used_outcomes with
      | none => none
      | some (results, warnings) =>
        some (AnalysisResult.unmatched line.label line.odds reason :: results,
          unmatched_warning line.label :: warnings)
    | (some outcome, reason) =>
      match expected_value outcome.true_prob line.odds stake,
          kelly_fraction outcome.true_prob line.odds with
      | some ev, some base_kelly =>
        let recommended_fraction := max 0 (base_kelly * max 0 fractional_kelly)
        let recommended_bet := bankroll * recommended_fraction
        let point_warnings := point_warnings_for line.label line.point consensus_point
        match analyze_loop outcomes market consensus_point stake bankroll fractional_kelly
            total_lines rest (used_outcomes ++ [outcome.name]) with
        | none => none
        | some (results, warnings) =>
          some (AnalysisResult.matched line.label line.odds outcome.name
              outcome.true_prob outcome.fair_price ev base_kelly recommended_fraction
              recommended_bet outcome.avg_price consensus_point reason line.point
              :: results,
            point_warnings ++ warnings)
      | _, _ => none

/-- The sort key of the final ranking (core.py line 528):
`item.get("expected_value", float("-inf"))`; `none` stands for minus
infinity (unmatched results). -/
def sort_key (r : AnalysisResult) : Option ℚ :=
  match r with
  | .unmatched _ _ _ => none
  | .matched _ _ _ _ _ ev _ _ _ _ _ _ _ => some ev

/-- Order on sort keys with `none` as minus infinity. -/
def key_le (a b : Option ℚ) : Bool :=
  match a, b with
  | none, _ => true
  | some _, none => false
  | some x, some y => x ≤ y

/-- Stable insertion step for the descending sort. -/
def insert_desc (x : AnalysisResult) : List AnalysisResult → List AnalysisResult
  | [] => [x]
  | y :: ys =>
    if key_le (sort_key y) (sort_key x) then x :: y :: ys
    else y :: insert_desc x ys

/-- Python's stable `results.sort(key=..., reverse=True)` (core.py line
528) as a stable insertion sort: descending by key, equal keys keep their
original order. -/
def sort_results : List AnalysisResult → List AnalysisResult
  | [] => []
  | x :: xs => insert_desc x (sort_results xs)

/-- Embeds `analyze_user_lines` (core.py lines 457-529). -/
def analyze_user_lines (lines : List UserLine) (consensus : Consensus)
    (stake bankroll fractional_kelly : ℚ) :
    Option (List AnalysisResult × List String) :=
  match analyze_loop consensus.outcomes consensus.market consensus.consensus_point
      stake bankroll fractional_kelly lines.length lines [] with
  | none => none
  | some (results, warnings) => some (sort_results results, warnings)

/-! Embedding of the free-text line parser `_parse_lines_from_text`
(core.py lines 169-195).  The regex — a lazy label group of 3 or more
characters drawn from letters, digits, space, period, ampersand,
apostrophe, slash and hyphen, then optional whitespace, then a sign and
2 to 4 digits — is implemented directly: the
lazy label group tries the shortest length first; `\s*` and `\d{2,4}`
take a maximal munch (complete here because the following pattern
characters are disjoint from the repeated classes); `finditer` scans
left to right and continues after each match. -/

/-- The character class of the label group: letters, digits, space,
period, ampersand, apostrophe, slash, hyphen. -/
def isLabelChar (c : Char) : Bool :=
  c.isAlpha || c.isDigit || c == ' ' || c == '.' || c == '&' ||
    c == Char.ofNat 39 || c == '/' || c == '-'

/-- After the label: `\s*[+-]\d{2,4}`; returns the odds group (sign and
digits) and the remainder of the line. -/
def match_rest (l : List Char) : Option (List Char × List Char) :=
  let l1 := l.dropWhile Char.isWhitespace
  match l1 with
  | [] => none
  | c :: l2 =>
    if c == '+' || c == '-' then
      let digits := (l2.takeWhile Char.isDigit).take 4
      if 2 ≤ digits.length then some (c :: digits, l2.drop digits.length)
      else none
    else none

/-- Try a label of exactly `L` characters at the current position. -/
def try_label (chars : List Char) (L : ℕ) :
    Option (List Char × List Char × List Char) :=
  let lab := chars.take L
  if lab.length == L && lab.all isLabelChar then
    match match_rest (chars.drop L) with
    | some (odds, rest) => some (lab, odds, rest)
    | none => none
  else none

/-- A match of the whole pattern anchored at the current position: the
lazy `{3,}?` quantifier selects the shortest label length that lets the
rest of the pattern succeed. -/
def match_at (chars : List Char) : Option (List Char × List Char × List Char) :=
  (List.range (chars.length + 1)).foldl (fun acc L =>
    match acc with
    | some r => some r
    | none => if 3 ≤ L then try_label chars L else none) none

/-- The `finditer` scan: leftmost match first, continue after each match.
Every match consumes at least 6 characters, so `fuel = length` always
suffices and the fuel never runs out on the inputs used. -/
def find_matches_aux : ℕ → List Char → List (List Char × List Char)
  | 0, _ => []
  | _ + 1, [] => []
  | fuel + 1, c :: rest =>
    match match_at (c :: rest) with
    | some (lab, odds, remainder) => (lab, odds) :: find_matches_aux fuel remainder
    | none => find_matches_aux fuel rest

/-- All pattern matches in one physical line. -/
def find_matches (l : List Char) : List (List Char × List Char) :=
  find_matches_aux l.length l

/-- Python's `float` on a captured odds group (a sign followed by 2-4
digits); this never fails. -/
def parse_odds (s : List Char) : ℚ :=
  match s with
  | [] => 0
  | c :: ds =>
    let n : ℕ := ds.foldl (fun acc d => 10 * acc + (d.toNat - 48)) 0
    if c == '-' then -(n : ℚ) else (n : ℚ)

/-- Python's `str.strip` on a character list. -/
def trimChars (l : List Char) : List Char :=
  ((l.dropWhile Char.isWhitespace).reverse.dropWhile Char.isWhitespace).reverse

/-- Python's `str.strip`. -/
def strTrim (s : String) : String := String.mk (trimChars s.data)

/-- Splitting into physical lines at newline characters (Python's
`str.splitlines`; a trailing newline yields a final empty piece here,
which the parser skips anyway). -/
def splitOnNewline : List Char → List (List Char)
  | [] => [[]]
  | c :: rest =>
    match splitOnNewline rest with
    | [] => [[c]]
    | h :: t => if c == '\n' then [] :: h :: t else (c :: h) :: t

/-- The extraction stage of `_parse_lines_from_text` (core.py lines
170-186): per stripped nonempty physical line, every pattern match whose
stripped label is longer than 2 characters becomes a `UserLine` with the
stripped line as `raw_source`. -/
def extract_lines (text : String) : List UserLine :=
  (splitOnNewline text.data).foldl (fun acc raw_line0 =>
    let raw_line := String.mk (trimChars raw_line0)
    if raw_line.isEmpty then acc
    else
      (find_matches raw_line.data).foldl (fun acc2 m =>
        let label := String.mk (trimChars m.1)
        let odds_value := parse_odds m.2
        if label.length ≤ 2 then acc2
        else acc2 ++ [UserLine.mk label odds_value none (some raw_line)]) acc) []

/-- The dict key used for deduplication (core.py line 190):
`(line.label.lower(), line.odds)`. -/
def user_line_key (l : UserLine) : String × ℚ := (strLower l.label, l.odds)

/-- The deduplication stage (core.py lines 187-195): an insertion-ordered
dict keyed by `user_line_key`, first occurrence wins, then
`list(unique.values())`. -/
def dedup_unique (lines : List UserLine) : List UserLine :=
  (lines.foldl (fun unique line =>
    if unique.any (fun kv => kv.1 == user_line_key line) then unique
    else unique ++ [(user_line_key line, line)])
    ([] : List ((String × ℚ) × UserLine))).map Prod.snd

/-- Embeds `_parse_lines_from_text` (core.py lines 169-195): extraction,
deduplication, and the `ValueError` (`NoLinesFoundError`) when nothing
was extracted, modelled as `none`. -/
def parse_lines_from_text (text : String) : Option (List UserLine) :=
  let lines := extract_lines text
  let unique := dedup_unique lines
  if unique.isEmpty then none else some unique

/-- Specification-side first-occurrence filter: keep the head, drop every
later entry sharing its key, recurse. -/
def keep_first : List UserLine → List UserLine
  | [] => []
  | x :: xs =>
    x :: keep_first (xs.filter (fun y => !(user_line_key x == user_line_key y)))
termination_by ls => ls.length
decreasing_by
  simp_wf
  exact Nat.lt_succ_of_le (List.length_filter_le _ _)

/-! Theorems: helper lemmas and the claim theorems. -/

/-! Helper lemmas about the implied probability. -/

theorem american_to_implied_prob_pos (o : ℚ) (h : o ≠ 0) :
    0 < american_to_implied_prob o := by
  unfold american_to_implied_prob
  rcases lt_or_gt_of_ne h with hneg | hpos
  · rw [if_neg (not_lt.mpr hneg.le)]
    apply div_pos <;> linarith
  · rw [if_pos hpos]
    apply div_pos <;> linarith

theorem american_to_implied_prob_lt_one (o : ℚ) (h : o ≠ 0) :
    american_to_implied_prob o < 1 := by
  unfold american_to_implied_prob
  rcases lt_or_gt_of_ne h with hneg | hpos
  · rw [if_neg (not_lt.mpr hneg.le)]
    rw [div_lt_one (by linarith)]
    linarith
  · rw [if_pos hpos]
    rw [div_lt_one (by linarith)]
    linarith

/-- C2 counterexample: at `odds = 0` the Python function does not raise at
all.  The guard `odds > 0` fails, and the second branch evaluates
`-0/(-0+100) = 0.0`, so the function silently returns probability `0`
instead of failing with an error.  (No `InvalidOddsError` is raised
anywhere in `american_to_implied_prob`; the function body is total.) -/
theorem c2_counterexample : american_to_implied_prob 0 = 0 := by
  norm_num [american_to_implied_prob]

/-- C2 amended: `american_to_implied_prob` never fails.  For `odds > 0` it
returns `100/(odds+100)`; for every `odds ≤ 0` — including `odds = 0` —
it returns `-odds/(-odds+100)`, which at `odds = 0` is `0`. -/
theorem c2_amended (odds : ℚ) :
    (0 < odds → american_to_implied_prob odds = 100 / (odds + 100)) ∧
    (odds ≤ 0 → american_to_implied_prob odds = -odds / (-odds + 100)) ∧
    american_to_implied_prob 0 = 0 := by
  refine ⟨fun h => ?_, fun h => ?_, by norm_num [american_to_implied_prob]⟩
  · rw [american_to_implied_prob, if_pos h]
  · rw [american_to_implied_prob, if_neg (not_lt.mpr h)]

/-- C2 witness: the amended theorem evaluated at `odds = 110` and
`odds = -110`. -/
theorem c2_amended_witness :
    american_to_implied_prob 110 = 100 / (110 + 100) ∧
    american_to_implied_prob (-110) = -(-110) / (-(-110) + 100) :=
  ⟨(c2_amended 110).1 (by norm_num), (c2_amended (-110)).2.1 (by norm_num)⟩

/-- C5: `probability_to_american` fails (raises `ValueError`, modelled as
`none`) exactly when `p ≤ 0` or `p ≥ 1`; for `0 < p < 1/2` it returns
`round(100*(1-p)/p)` and for `1/2 ≤ p < 1` it returns
`round(-100*p/(1-p))`, with `round` the Python half-to-even rounding. -/
theorem c5_probability_to_american_spec (p : ℚ) :
    (probability_to_american p = none ↔ (p ≤ 0 ∨ 1 ≤ p)) ∧
    (0 < p → p < 1/2 →
      probability_to_american p = some (pyRound ((100 * (1 - p)) / p))) ∧
    (1/2 ≤ p → p < 1 →
      probability_to_american p = some (pyRound ((-100 * p) / (1 - p)))) := by
  refine ⟨?_, fun h0 hlt => ?_, fun hge hlt => ?_⟩
  · constructor
    · intro h
      by_contra hc
      push_neg at hc
      obtain ⟨h1, h2⟩ := hc
      rw [probability_to_american, if_neg (by push_neg; exact ⟨h1, h2⟩)] at h
      split_ifs at h <;> exact Option.noConfusion h
    · intro h
      rw [probability_to_american, if_pos]
      simpa [ge_iff_le] using h
  · rw [probability_to_american, if_neg (by push_neg; exact ⟨h0, by linarith⟩), if_pos hlt]
  · rw [probability_to_american, if_neg (by push_neg; exact ⟨by linarith, by linarith⟩), if_neg (not_lt.mpr hge)]

/-- C5 witness: the specification evaluated at `p = 1/10`, `p = 3/5` and
the failing input `p = 0`. -/
theorem c5_witness :
    probability_to_american 0 = none ∧
    probability_to_american (1/10) = some (pyRound ((100 * (1 - 1/10)) / (1/10))) ∧
    probability_to_american (3/5) = some (pyRound ((-100 * (3/5)) / (1 - 3/5))) :=
  ⟨(c5_probability_to_american_spec 0).1.mpr (Or.inl le_rfl),
   (c5_probability_to_american_spec (1/10)).2.1 (by norm_num) (by norm_num),
   (c5_probability_to_american_spec (3/5)).2.2 (by norm_num) (by norm_num)⟩

/-- C10: `american_to_decimal`, and therefore `kelly_fraction`, is
undefined at `odds = 0`: the division `100.0 / -odds` is unguarded, so
`kelly_fraction p 0` fails with a division-by-zero error (`none`) rather
than returning `0`, for every probability `p`; and for every `odds ≠ 0`
the division is safe and `american_to_decimal odds` returns a value
strictly greater than `1`. -/
theorem c10_decimal_unguarded_at_zero :
    (∀ p : ℚ, kelly_fraction p 0 = none) ∧
    (∀ odds : ℚ, odds ≠ 0 → ∃ d, american_to_decimal odds = some d ∧ 1 < d) := by
  constructor
  · intro p
    rw [kelly_fraction]
    norm_num [american_to_decimal]
  · intro odds h
    rcases lt_or_gt_of_ne h with hneg | hpos
    · refine ⟨1 + 100 / -odds, ?_, ?_⟩
      · rw [american_to_decimal, if_neg (not_lt.mpr hneg.le), if_neg h]
      · have : (0:ℚ) < 100 / -odds := div_pos (by norm_num) (by linarith)
        linarith
    · refine ⟨1 + odds / 100, ?_, ?_⟩
      · rw [american_to_decimal, if_pos hpos]
      · have : (0:ℚ) < odds / 100 := by positivity
        linarith

/-- C10 witness: `kelly_fraction` at `(p, odds) = (1/2, 0)` fails, and
`american_to_decimal (-110)` is defined and exceeds `1`. -/
theorem c10_witness :
    kelly_fraction (1/2) 0 = none ∧
    ∃ d, american_to_decimal (-110) = some d ∧ 1 < d :=
  ⟨c10_decimal_unguarded_at_zero.1 (1/2),
   c10_decimal_unguarded_at_zero.2 (-110) (by norm_num)⟩

/-- C3 counterexample: the round trip is not within rounding of the
original odds at `o = +100`.  The implied probability of `+100` is
exactly `1/2`, which `probability_to_american` maps through its `p ≥ 0.5`
branch to `-100`, not `+100`. -/
theorem c3_counterexample :
    probability_to_american (american_to_implied_prob 100) = some (-100) ∧
    ((-100 : ℚ) ≠ 100) := by
  constructor
  · have h : american_to_implied_prob 100 = 1/2 := by
      norm_num [american_to_implied_prob]
    rw [h, probability_to_american]
    norm_num [pyRound]
  · norm_num

/-- C3 amended: for every `o ≠ 0` the implied probability lies strictly
between `0` and `1`, and the round trip
`probability_to_american (american_to_implied_prob o)` equals `round o`
for `o > 100` and for `o ≤ -100`; but at `o = +100` it returns `-100`
(the equivalent even-money quote with the opposite sign), and for
`0 < |o| < 100` it returns `round (-10000/o)` (the equivalent
opposite-signed quote), not a value within rounding of `o`. -/
theorem c3_amended (o : ℚ) (h : o ≠ 0) :
    (0 < american_to_implied_prob o ∧ american_to_implied_prob o < 1) ∧
    (100 < o → probability_to_american (american_to_implied_prob o) = some (pyRound o)) ∧
    (o ≤ -100 → probability_to_american (american_to_implied_prob o) = some (pyRound o)) ∧
    (o = 100 → probability_to_american (american_to_implied_prob o) = some (-100)) ∧
    (0 < o → o < 100 → probability_to_american (american_to_implied_prob o) = some (pyRound (-10000 / o))) ∧
    (-100 < o → o < 0 → probability_to_american (american_to_implied_prob o) = some (pyRound (-10000 / o))) := by
  have hpos := american_to_implied_prob_pos o h
  have hlt1 := american_to_implied_prob_lt_one o h
  have hguard : ¬(american_to_implied_prob o ≤ 0 ∨ american_to_implied_prob o ≥ 1) := by
    push_neg
    exact ⟨hpos, hlt1⟩
  refine ⟨⟨hpos, hlt1⟩, fun h100 => ?_, fun h100 => ?_, fun h100 => ?_,
    fun h0 h100 => ?_, fun h0 h100 => ?_⟩
  · have ho : (0:ℚ) < o := by linarith
    have hden : (0:ℚ) < o + 100 := by linarith
    have hp : american_to_implied_prob o = 100 / (o + 100) := by
      rw [american_to_implied_prob, if_pos ho]
    rw [probability_to_american, if_neg hguard, hp,
      if_pos (by rw [div_lt_div_iff hden (by norm_num)]; linarith)]
    congr 2
    field_simp
  · have hneg : o < 0 := by linarith
    have hden : (0:ℚ) < -o + 100 := by linarith
    have hp : american_to_implied_prob o = -o / (-o + 100) := by
      rw [american_to_implied_prob, if_neg (not_lt.mpr hneg.le)]
    rw [probability_to_american, if_neg hguard, hp,
      if_neg (by rw [not_lt, le_div_iff hden]; linarith)]
    congr 2
    have hp1 : 1 - -o / (-o + 100) = 100 / (-o + 100) := by
      field_simp
    have h1 : -o + 100 ≠ 0 := hden.ne'
    rw [hp1]
    field_simp
  · subst h100
    have hp : american_to_implied_prob 100 = 1/2 := by
      norm_num [american_to_implied_prob]
    rw [probability_to_american, if_neg hguard, hp]
    norm_num [pyRound]
  · have hden : (0:ℚ) < o + 100 := by linarith
    have hp : american_to_implied_prob o = 100 / (o + 100) := by
      rw [american_to_implied_prob, if_pos h0]
    rw [probability_to_american, if_neg hguard, hp,
      if_neg (by rw [not_lt, le_div_iff hden]; linarith)]
    congr 2
    have hp1 : 1 - 100 / (o + 100) = o / (o + 100) := by
      field_simp
    have h1 : o + 100 ≠ 0 := hden.ne'
    rw [hp1]
    field_simp
    ring
  · have hden : (0:ℚ) < -o + 100 := by linarith
    have hp : american_to_implied_prob o = -o / (-o + 100) := by
      rw [american_to_implied_prob, if_neg (not_lt.mpr h100.le)]
    rw [probability_to_american, if_neg hguard, hp,
      if_pos (by rw [div_lt_div_iff hden (by norm_num)]; linarith)]
    congr 2
    have hp1 : 1 - -o / (-o + 100) = 100 / (-o + 100) := by
      field_simp
    have h1 : -o + 100 ≠ 0 := hden.ne'
    have h2 : -o ≠ 0 := neg_ne_zero.mpr h
    rw [hp1]
    field_simp
    exact Or.inl (by norm_num)

/-- C3 witness: the amended theorem evaluated at `o = 150` (round trip
recovers `150`) and at `o = 50` (round trip lands on the opposite-signed
equivalent `-200`). -/
theorem c3_amended_witness :
    (0 < american_to_implied_prob 150 ∧ american_to_implied_prob 150 < 1) ∧
    probability_to_american (american_to_implied_prob 150) = some (pyRound 150) ∧
    probability_to_american (american_to_implied_prob 50) = some (pyRound (-10000 / 50)) :=
  ⟨(c3_amended 150 (by norm_num)).1,
   (c3_amended 150 (by norm_num)).2.1 (by norm_num),
   (c3_amended 50 (by norm_num)).2.2.2.2.1 (by norm_num) (by norm_num)⟩

/-! Theorems about vig removal and the consensus builder. -/

theorem vig_free_probabilities_sum_one (a b p q : ℚ)
    (h : vig_free_probabilities a b = some (p, q)) : p + q = 1 := by
  simp only [vig_free_probabilities] at h
  split_ifs at h with ht
  have h2 := Option.some.inj h
  have hp := congrArg Prod.fst h2
  have hq := congrArg Prod.snd h2
  simp only at hp hq
  rw [← hp, ← hq, div_add_div_same, div_self ht]

theorem build_consensus_sum_one (market : String) (cp : Option ℚ)
    (ml : List MarketEntry) (pre : List (String × ℚ × Option ℚ)) (c : Consensus)
    (h : build_consensus market cp ml pre = some c) :
    (c.outcomes.map ConsensusOutcome.true_prob).sum = 1 := by
  rcases pre with _ | ⟨a0, _ | ⟨b0, _ | ⟨c0, rest⟩⟩⟩ <;>
    simp only [build_consensus] at h
  · exact Option.noConfusion h
  · exact Option.noConfusion h
  · rcases hv : vig_free_probabilities a0.2.1 b0.2.1 with _ | ⟨pa, pb⟩ <;>
      rw [hv] at h
    · exact Option.noConfusion h
    · have hc := Option.some.inj h
      subst hc
      have hsum := vig_free_probabilities_sum_one _ _ _ _ hv
      simp [hsum]
  · exact Option.noConfusion h

/-- C4: for every pair of nonzero American prices, `vig_free_probabilities`
returns the two implied probabilities normalized by their sum, and the
pair sums to exactly 1; consequently whenever `compute_sharp_consensus`
returns a consensus, its two `true_prob` values sum to exactly 1. -/
theorem c4_vig_free_normalization :
    (∀ a b : ℚ, a ≠ 0 → b ≠ 0 → ∃ p q, vig_free_probabilities a b = some (p, q) ∧
      p = american_to_implied_prob a /
        (american_to_implied_prob a + american_to_implied_prob b) ∧
      q = american_to_implied_prob b /
        (american_to_implied_prob a + american_to_implied_prob b) ∧
      p + q = 1) ∧
    (∀ (event : ApiEvent) (market : String) (c : Consensus),
      compute_sharp_consensus event market = some c →
      (c.outcomes.map ConsensusOutcome.true_prob).sum = 1) := by
  constructor
  · intro a b ha hb
    have hpa := american_to_implied_prob_pos a ha
    have hpb := american_to_implied_prob_pos b hb
    have ht : american_to_implied_prob a + american_to_implied_prob b ≠ 0 :=
      ne_of_gt (by linarith)
    refine ⟨_, _, ?_, rfl, rfl, ?_⟩
    · simp only [vig_free_probabilities]
      rw [if_neg ht]
    · rw [div_add_div_same, div_self ht]
  · intro event market c hc
    simp only [compute_sharp_consensus] at hc
    split_ifs at hc <;> exact build_consensus_sum_one _ _ _ _ _ hc

/-- C7: on a market with a computed consensus point `c`, every sharp entry
whose first outcome carries a point within absolute distance `0.05` of
`c` passes the point filter (and is therefore kept for aggregation), and
whenever the filter eliminates every sharp entry, `filtered_entries`
falls back to all sharp entries unfiltered — `compute_sharp_consensus`
aggregates over exactly `filtered_entries` (see its definition), so no
failure occurs at this stage. -/
theorem c7_sharp_point_filter (c : ℚ) (sharp : List MarketEntry) :
    (∀ e ∈ sharp, ∀ (o : ApiOutcome) (rest : List ApiOutcome) (p : ℚ),
      e.2.outcomes = o :: rest → o.point = some p → |p - c| ≤ 1/20 →
      include_entry (some c) e = true ∧ e ∈ filtered_entries (some c) sharp) ∧
    (sharp.filter (include_entry (some c)) = [] →
      filtered_entries (some c) sharp = sharp) := by
  constructor
  · intro e he o rest p ho hp hclose
    have hinc : include_entry (some c) e = true := by
      simp only [include_entry, ho, hp, pyIsClose]
      rw [decide_eq_true_eq]
      exact hclose.trans (le_max_right _ _)
    refine ⟨hinc, ?_⟩
    have hmem : e ∈ sharp.filter (include_entry (some c)) :=
      List.mem_filter.mpr ⟨he, hinc⟩
    have hne : sharp.filter (include_entry (some c)) ≠ [] := by
      intro hnil
      rw [hnil] at hmem
      exact absurd hmem (List.not_mem_nil e)
    simp only [filtered_entries]
    rw [if_neg (by simpa [List.isEmpty_iff] using hne)]
    exact hmem
  · intro hf
    simp [filtered_entries, hf]

/-- C7 witness: a sharp entry quoting point `3.01` against consensus point
`3` passes the filter and is kept; a lone entry quoting point `10`
empties the filter and the fallback keeps it unfiltered. -/
theorem c7_witness :
    (include_entry (some 3)
        (ApiBookmaker.mk "pinnacle" [],
         ApiMarket.mk "spreads" [ApiOutcome.mk "A" (some (-110)) (some (301/100))]) = true ∧
      (ApiBookmaker.mk "pinnacle" [],
       ApiMarket.mk "spreads" [ApiOutcome.mk "A" (some (-110)) (some (301/100))]) ∈
        filtered_entries (some 3)
          [(ApiBookmaker.mk "pinnacle" [],
            ApiMarket.mk "spreads" [ApiOutcome.mk "A" (some (-110)) (some (301/100))])]) ∧
    filtered_entries (some 3)
        [(ApiBookmaker.mk "pinnacle" [],
          ApiMarket.mk "spreads" [ApiOutcome.mk "A" (some (-110)) (some 10)])] =
      [(ApiBookmaker.mk "pinnacle" [],
        ApiMarket.mk "spreads" [ApiOutcome.mk "A" (some (-110)) (some 10)])] := by
  constructor
  · exact (c7_sharp_point_filter 3 _).1 _ (List.mem_singleton.mpr rfl) _ [] (301/100)
      rfl rfl (by rw [abs_le]; constructor <;> norm_num)
  · refine (c7_sharp_point_filter 3 _).2 ?_
    simp only [List.filter, include_entry, pyIsClose]
    norm_num

/-- C4 witness: both parts evaluated concretely: the vig-free pair for
prices `(-110, -110)`, and a one-bookmaker pinnacle event whose computed
consensus has `true_prob` values `1/2` and `1/2` summing to `1`. -/
theorem c4_witness :
    (∃ p q, vig_free_probabilities (-110) (-110) = some (p, q) ∧
      p = american_to_implied_prob (-110) /
        (american_to_implied_prob (-110) + american_to_implied_prob (-110)) ∧
      q = american_to_implied_prob (-110) /
        (american_to_implied_prob (-110) + american_to_implied_prob (-110)) ∧
      p + q = 1) ∧
    ((Consensus.mk "h2h"
        [ConsensusOutcome.mk "A" (-110) none (1/2) (some (-100)),
         ConsensusOutcome.mk "B" (-110) none (1/2) (some (-100))] none
        [(ApiBookmaker.mk "pinnacle"
            [ApiMarket.mk "h2h" [ApiOutcome.mk "A" (some (-110)) none,
                                 ApiOutcome.mk "B" (some (-110)) none]],
          ApiMarket.mk "h2h" [ApiOutcome.mk "A" (some (-110)) none,
                              ApiOutcome.mk "B" (some (-110)) none])]).outcomes.map
      ConsensusOutcome.true_prob).sum = 1 := by
  constructor
  · exact c4_vig_free_normalization.1 (-110) (-110) (by norm_num) (by norm_num)
  · apply c4_vig_free_normalization.2 (ApiEvent.mk (some "B") (some "A")
      [ApiBookmaker.mk "pinnacle"
        [ApiMarket.mk "h2h" [ApiOutcome.mk "A" (some (-110)) none,
                             ApiOutcome.mk "B" (some (-110)) none]]]) "h2h"
    have hAB : ("A" : String) ≠ "B" := by decide
    have hBA : ("B" : String) ≠ "A" := by decide
    have htot : ("h2h" : String) ≠ "totals" := by decide
    have hAA : (("A" : String) == "A") = true := by decide
    have hBB : (("B" : String) == "B") = true := by decide
    have hABb : (("A" : String) == "B") = false := by decide
    have hBAb : (("B" : String) == "A") = false := by decide
    have hlowA : Char.toLower (Char.ofNat 65) = Char.ofNat 97 := by decide
    have hlowB : Char.toLower (Char.ofNat 66) = Char.ofNat 98 := by decide
    norm_num [compute_sharp_consensus, sharp_markets, market_list, find_market,
      SHARP_BOOKS, compute_consensus_point, most_common_first, sharp_points,
      filtered_entries, include_entry, collect_outcome_data, alist_append,
      determine_outcome_order, canonicalize_team, strLower, strStartsWith,
      consensus_pre, build_consensus, vig_free_probabilities,
      american_to_implied_prob, probability_to_american, pyRound,
      List.foldl_cons, List.foldl_nil, List.filterMap_cons, List.find?,
      List.isPrefixOf, hAB, hBA, htot, hAA, hBB, hABb, hBAb, hlowA, hlowB]

/-! Lemmas about the final sort. -/

theorem length_insert_desc (x : AnalysisResult) (l : List AnalysisResult) :
    (insert_desc x l).length = l.length + 1 := by
  induction l with
  | nil => rfl
  | cons y ys ih =>
    simp only [insert_desc]
    split_ifs <;> simp [ih]

theorem length_sort_results (l : List AnalysisResult) :
    (sort_results l).length = l.length := by
  induction l with
  | nil => rfl
  | cons x xs ih => simp [sort_results, length_insert_desc, ih]

theorem mem_insert_desc (r x : AnalysisResult) (l : List AnalysisResult) :
    r ∈ insert_desc x l ↔ r = x ∨ r ∈ l := by
  induction l with
  | nil => simp [insert_desc]
  | cons y ys ih =>
    simp only [insert_desc]
    split_ifs
    · simp
    · simp only [List.mem_cons, ih]
      tauto

theorem mem_sort_results (r : AnalysisResult) (l : List AnalysisResult) :
    r ∈ sort_results l ↔ r ∈ l := by
  induction l with
  | nil => simp [sort_results]
  | cons x xs ih => simp [sort_results, mem_insert_desc, ih]

/-- C6: in the loop body of `analyze_user_lines`, when a line finds no
outcome by any matching strategy (or its match was discarded because the
outcome was already claimed), exactly one outcome remains unclaimed and
the batch holds exactly 2 lines, the remaining outcome is assigned
unconditionally; for a batch of any other size — and likewise when the
number of unclaimed outcomes is not exactly one — the resolution is
exactly the first-stage match, so no fallback assignment occurs. -/
theorem c6_remaining_outcome_fallback (line : UserLine)
    (outcomes : List ConsensusOutcome) (market : String)
    (used_outcomes : List String) (total_lines : ℕ) :
    (∀ oc, (first_stage_match line outcomes market used_outcomes).1 = none →
      outcomes.filter (fun o => !(used_outcomes.contains o.name)) = [oc] →
      total_lines = 2 →
      resolve_outcome line outcomes market used_outcomes total_lines =
        (some oc, "assigned remaining outcome")) ∧
    (total_lines ≠ 2 →
      resolve_outcome line outcomes market used_outcomes total_lines =
        first_stage_match line outcomes market used_outcomes) ∧
    ((outcomes.filter (fun o => !(used_outcomes.contains o.name))).length ≠ 1 →
      resolve_outcome line outcomes market used_outcomes total_lines =
        first_stage_match line outcomes market used_outcomes) := by
  refine ⟨?_, ?_, ?_⟩
  · intro oc h1 h2 h3
    subst h3
    rcases hfs : first_stage_match line outcomes market used_outcomes with ⟨o, reason⟩
    rw [hfs] at h1
    simp only at h1
    subst h1
    simp only [resolve_outcome, hfs, h2]
    rfl
  · intro hne
    rcases hfs : first_stage_match line outcomes market used_outcomes with ⟨o, reason⟩
    cases o with
    | some o => simp [resolve_outcome, hfs]
    | none => simp [resolve_outcome, hfs, hne]
  · intro hne
    rcases hfs : first_stage_match line outcomes market used_outcomes with ⟨o, reason⟩
    cases o with
    | some o => simp [resolve_outcome, hfs]
    | none =>
      simp at hne
      simp [resolve_outcome, hfs, hne]

/-- C6 witness: with outcomes `Alpha`/`Beta`, `Alpha` already claimed and
an unmatchable label in a 2-line batch, `Beta` is assigned; in a 3-line
batch the resolution is the plain first-stage result. -/
theorem c6_witness :
    resolve_outcome (UserLine.mk "zzz" (-110) none none)
      [ConsensusOutcome.mk "Alpha" (-110) none 0 none,
       ConsensusOutcome.mk "Beta" (-105) none 0 none] "h2h" ["Alpha"] 2 =
      (some (ConsensusOutcome.mk "Beta" (-105) none 0 none),
        "assigned remaining outcome") ∧
    resolve_outcome (UserLine.mk "zzz" (-110) none none)
      [ConsensusOutcome.mk "Alpha" (-110) none 0 none,
       ConsensusOutcome.mk "Beta" (-105) none 0 none] "h2h" ["Alpha"] 3 =
      first_stage_match (UserLine.mk "zzz" (-110) none none)
        [ConsensusOutcome.mk "Alpha" (-110) none 0 none,
         ConsensusOutcome.mk "Beta" (-105) none 0 none] "h2h" ["Alpha"] :=
  ⟨(c6_remaining_outcome_fallback _ _ _ _ 2).1 _ (by decide) (by decide) rfl,
   (c6_remaining_outcome_fallback _ _ _ _ 3).2.1 (by decide)⟩

/-! C1: the recommended fraction in `analyze_user_lines`. -/

set_option maxHeartbeats 2000000 in
theorem analyze_loop_matched_fraction (outcomes : List ConsensusOutcome)
    (market : String) (cp : Option ℚ) (stake bankroll fk : ℚ) (total : ℕ)
    (lines : List UserLine) :
    ∀ (used : List String) (rs : List AnalysisResult) (ws : List String),
      analyze_loop outcomes market cp stake bankroll fk total lines used =
        some (rs, ws) →
      ∀ lbl odds mo tp fp ev kf rf rb cprice cpt mr up,
        AnalysisResult.matched lbl odds mo tp fp ev kf rf rb cprice cpt mr up ∈ rs →
        rf = max 0 (kf * max 0 fk) ∧ rb = bankroll * rf := by
  induction lines with
  | nil =>
    intro used rs ws h lbl odds mo tp fp ev kf rf rb cprice cpt mr up hmem
    simp only [analyze_loop, Option.some.injEq, Prod.mk.injEq] at h
    obtain ⟨h1, h2⟩ := h
    subst h1
    simp at hmem
  | cons line rest ih =>
    intro used rs ws h lbl odds mo tp fp ev kf rf rb cprice cpt mr up hmem
    simp only [analyze_loop] at h
    split at h
    · split at h
      · exact Option.noConfusion h
      · rename_i rs2 ws2 hrec
        simp only [Option.some.injEq, Prod.mk.injEq] at h
        obtain ⟨h1, h2⟩ := h
        subst h1
        rcases List.mem_cons.mp hmem with heq | htail
        · exact absurd heq (by simp)
        · exact ih used rs2 ws2 hrec _ _ _ _ _ _ _ _ _ _ _ _ _ htail
    · rename_i outcome reason hres
      split at h
      · rename_i ev0 k0 hev hk
        split at h
        · exact Option.noConfusion h
        · rename_i rs2 ws2 hrec
          simp only [Option.some.injEq, Prod.mk.injEq] at h
          obtain ⟨h1, h2⟩ := h
          subst h1
          rcases List.mem_cons.mp hmem with heq | htail
          · simp only [AnalysisResult.matched.injEq] at heq
            obtain ⟨_, _, _, _, _, _, hkf, hrf, hrb, _, _, _, _⟩ := heq
            constructor
            · rw [hrf, hkf]
            · rw [hrb, hrf]
          · exact ih (used ++ [outcome.name]) rs2 ws2 hrec _ _ _ _ _ _ _ _ _ _ _ _ _ htail
      · exact Option.noConfusion h

/-- C1 amended: for every matched line in the output of
`analyze_user_lines`, the recommended fraction equals
`max 0 (kelly_fraction * max 0 fractionalKellyMultiplier)` — the
multiplier is clamped below at `0` but NOT above at `1`, so the fraction
can exceed `1` when the multiplier exceeds `1` — and the recommended
stake equals `bankroll * recommended_fraction`. -/
theorem c1_amended (lines : List UserLine) (consensus : Consensus)
    (stake bankroll fractional_kelly : ℚ) (rs : List AnalysisResult)
    (ws : List String)
    (h : analyze_user_lines lines consensus stake bankroll fractional_kelly =
      some (rs, ws)) :
    ∀ lbl odds mo tp fp ev kf rf rb cprice cpt mr up,
      AnalysisResult.matched lbl odds mo tp fp ev kf rf rb cprice cpt mr up ∈ rs →
      rf = max 0 (kf * max 0 fractional_kelly) ∧ rb = bankroll * rf := by
  intro lbl odds mo tp fp ev kf rf rb cprice cpt mr up hmem
  simp only [analyze_user_lines] at h
  rcases hloop : analyze_loop consensus.outcomes consensus.market
      consensus.consensus_point stake bankroll fractional_kelly lines.length lines []
    with _ | ⟨rs2, ws2⟩ <;> rw [hloop] at h
  · exact Option.noConfusion h
  · simp only [Option.some.injEq, Prod.mk.injEq] at h
    obtain ⟨h1, h2⟩ := h
    subst h1
    exact analyze_loop_matched_fraction _ _ _ _ _ _ _ _ _ _ _ hloop
      _ _ _ _ _ _ _ _ _ _ _ _ _ ((mem_sort_results _ _).mp hmem)

/-- C1 counterexample: bankroll `1000`, multiplier `2`, a matched line at
`+100` against true probability `4/5` has `kelly_fraction = 3/5`, but the
code returns `recommended_fraction = 6/5`: the multiplier is NOT clamped
to `[0,1]` (the claimed formula gives `3/5`) and the fraction exceeds
`1`. -/
theorem c1_counterexample :
    analyze_user_lines [UserLine.mk "Eagles" 100 none none]
      (Consensus.mk "h2h"
        [ConsensusOutcome.mk "Eagles" (-110) none (4/5) none,
         ConsensusOutcome.mk "Cowboys" (-110) none (1/5) none] none [])
      100 1000 2 =
      some ([AnalysisResult.matched "Eagles" 100 "Eagles" (4/5) none 60 (3/5) (6/5)
        1200 (-110) none "matched by name" none], []) ∧
    ¬((6/5 : ℚ) = max 0 ((3/5) * min (max (2:ℚ) 0) 1)) ∧ 1 < (6/5 : ℚ) := by
  refine ⟨?_, by norm_num [max_def, min_def], by norm_num⟩
  have h1 : canonicalize_team "Eagles" = "eagles" := by decide
  have h2 : canonicalize_team "Cowboys" = "cowboys" := by decide
  have h3 : ("h2h" : String) ≠ "totals" := by decide
  have h4 : (("eagles" : String) == "eagles") = true := by decide
  have h5 : (("cowboys" : String) == "eagles") = false := by decide
  have h6 : ("eagles" : String).isEmpty = false := by decide
  norm_num [analyze_user_lines, analyze_loop, resolve_outcome, first_stage_match,
    match_line_to_outcome, expected_value, kelly_fraction, american_to_decimal,
    sort_results, insert_desc, sort_key, key_le, max_def, point_warnings_for,
    h1, h2, h3, h4, h5, h6]

/-- C1 witness: the amended theorem applied to the concrete matched line
of the counterexample input (kelly `3/5`, multiplier `2`, bankroll
`1000`). -/
theorem c1_witness :
    (6/5 : ℚ) = max 0 ((3/5) * max 0 (2:ℚ)) ∧ (1200 : ℚ) = 1000 * (6/5) := by
  have heval : analyze_user_lines [UserLine.mk "Eagles" 100 none none]
      (Consensus.mk "h2h"
        [ConsensusOutcome.mk "Eagles" (-110) none (4/5) none,
         ConsensusOutcome.mk "Cowboys" (-110) none (1/5) none] none [])
      100 1000 2 =
      some ([AnalysisResult.matched "Eagles" 100 "Eagles" (4/5) none 60 (3/5) (6/5)
        1200 (-110) none "matched by name" none], []) := by
    have h1 : canonicalize_team "Eagles" = "eagles" := by decide
    have h2 : canonicalize_team "Cowboys" = "cowboys" := by decide
    have h3 : ("h2h" : String) ≠ "totals" := by decide
    have h4 : (("eagles" : String) == "eagles") = true := by decide
    have h5 : (("cowboys" : String) == "eagles") = false := by decide
    have h6 : ("eagles" : String).isEmpty = false := by decide
    norm_num [analyze_user_lines, analyze_loop, resolve_outcome, first_stage_match,
      match_line_to_outcome, expected_value, kelly_fraction, american_to_decimal,
      sort_results, insert_desc, sort_key, key_le, max_def, point_warnings_for,
      h1, h2, h3, h4, h5, h6]
  exact c1_amended _ _ _ _ _ _ _ heval "Eagles" 100 "Eagles" (4/5) none 60 (3/5)
    (6/5) 1200 (-110) none "matched by name" none (List.mem_singleton.mpr rfl)

/-! C9: per-line matching failures never abort the batch. -/

theorem american_to_decimal_isSome (odds : ℚ) (h : odds ≠ 0) :
    ∃ d, american_to_decimal odds = some d := by
  rcases lt_or_gt_of_ne h with hneg | hpos
  · exact ⟨_, by rw [american_to_decimal, if_neg (not_lt.mpr hneg.le), if_neg h]⟩
  · exact ⟨_, by rw [american_to_decimal, if_pos hpos]⟩

theorem expected_value_isSome (tp odds stake : ℚ) (h : odds ≠ 0) :
    ∃ v, expected_value tp odds stake = some v := by
  rcases lt_or_gt_of_ne h with hneg | hpos
  · exact ⟨_, by rw [expected_value, if_neg (not_lt.mpr hneg.le), if_neg h]⟩
  · exact ⟨_, by rw [expected_value, if_pos hpos]⟩

theorem kelly_fraction_isSome (tp odds : ℚ) (h : odds ≠ 0) :
    ∃ v, kelly_fraction tp odds = some v := by
  obtain ⟨d, hd⟩ := american_to_decimal_isSome odds h
  simp only [kelly_fraction, hd]
  split_ifs <;> exact ⟨_, rfl⟩

set_option maxHeartbeats 2000000 in
theorem analyze_loop_total (outcomes : List ConsensusOutcome) (market : String)
    (cp : Option ℚ) (stake bankroll fk : ℚ) (total : ℕ) (lines : List UserLine) :
    ∀ used : List String, (∀ l ∈ lines, l.odds ≠ 0) →
    ∃ rs ws, analyze_loop outcomes market cp stake bankroll fk total lines used =
        some (rs, ws) ∧
      rs.length = lines.length ∧
      ∀ lbl odds msg, AnalysisResult.unmatched lbl odds msg ∈ rs →
        unmatched_warning lbl ∈ ws := by
  induction lines with
  | nil =>
    intro used _
    exact ⟨[], [], rfl, rfl, by simp⟩
  | cons line rest ih =>
    intro used hz
    have hodds : line.odds ≠ 0 := hz line (List.mem_cons_self _ _)
    have hrest : ∀ l ∈ rest, l.odds ≠ 0 := fun l hl => hz l (List.mem_cons_of_mem _ hl)
    rcases hres : resolve_outcome line outcomes market used total with ⟨o, reason⟩
    cases o with
    | none =>
      obtain ⟨rs2, ws2, hrec, hlen, hww⟩ := ih used hrest
      refine ⟨AnalysisResult.unmatched line.label line.odds reason :: rs2,
        unmatched_warning line.label :: ws2, ?_, by simp [hlen], ?_⟩
      · simp only [analyze_loop, hres, hrec]
      · intro lbl odds msg hmem
        rcases List.mem_cons.mp hmem with heq | htail
        · simp only [AnalysisResult.unmatched.injEq] at heq
          obtain ⟨hl1, _, _⟩ := heq
          subst hl1
          exact List.mem_cons_self _ _
        · exact List.mem_cons_of_mem _ (hww _ _ _ htail)
    | some o =>
      obtain ⟨ev0, hev⟩ := expected_value_isSome o.true_prob line.odds stake hodds
      obtain ⟨k0, hk⟩ := kelly_fraction_isSome o.true_prob line.odds hodds
      obtain ⟨rs2, ws2, hrec, hlen, hww⟩ := ih (used ++ [o.name]) hrest
      refine ⟨AnalysisResult.matched line.label line.odds o.name o.true_prob
          o.fair_price ev0 k0 (max 0 (k0 * max 0 fk)) (bankroll * max 0 (k0 * max 0 fk))
          o.avg_price cp reason line.point :: rs2,
        point_warnings_for line.label line.point cp ++ ws2, ?_, ?_, ?_⟩
      · simp only [analyze_loop, hres, hev, hk, hrec]
      · simp [hlen]
      · intro lbl odds msg hmem
        rcases List.mem_cons.mp hmem with heq | htail
        · exact absurd heq (by simp)
        · exact List.mem_append_right _ (hww _ _ _ htail)

/-- C9 amended: provided every submitted line carries nonzero odds,
`analyze_user_lines` never raises: it returns exactly one result per
input line, and every line that resolves to no outcome contributes a
result with status `unmatched` together with an appended warning.  (The
proviso is necessary: a matched line with odds `0` makes the EV
computation divide by zero and abort the whole call, see the
counterexample.) -/
theorem c9_amended (lines : List UserLine) (consensus : Consensus)
    (stake bankroll fractional_kelly : ℚ) (hz : ∀ l ∈ lines, l.odds ≠ 0) :
    ∃ rs ws, analyze_user_lines lines consensus stake bankroll fractional_kelly =
        some (rs, ws) ∧
      rs.length = lines.length ∧
      ∀ lbl odds msg, AnalysisResult.unmatched lbl odds msg ∈ rs →
        unmatched_warning lbl ∈ ws := by
  obtain ⟨rs2, ws2, hloop, hlen, hww⟩ := analyze_loop_total consensus.outcomes
    consensus.market consensus.consensus_point stake bankroll fractional_kelly
    lines.length lines [] hz
  refine ⟨sort_results rs2, ws2, ?_, ?_, ?_⟩
  · simp only [analyze_user_lines, hloop]
  · rw [length_sort_results, hlen]
  · intro lbl odds msg hmem
    exact hww _ _ _ ((mem_sort_results _ _).mp hmem)

/-- C9 witness: a single unmatchable line with nonzero odds yields one
`unmatched` result and its warning, no exception. -/
theorem c9_witness :
    ∃ rs ws,
      analyze_user_lines [UserLine.mk "NoSuchTeam" (-110) none none]
        (Consensus.mk "h2h"
          [ConsensusOutcome.mk "Eagles" (-110) none (4/5) none,
           ConsensusOutcome.mk "Cowboys" (-110) none (1/5) none] none [])
        100 1000 1 = some (rs, ws) ∧
      rs.length = 1 ∧
      ∀ lbl odds msg, AnalysisResult.unmatched lbl odds msg ∈ rs →
        unmatched_warning lbl ∈ ws :=
  c9_amended _ _ _ _ _ (by
    intro l hl
    simp only [List.mem_singleton] at hl
    subst hl
    norm_num)

/-- C9 counterexample: the claim quantifies over every input batch, but a
line with odds `0` that matches an outcome makes `expected_value` divide
by zero: the call aborts (returns nothing at all) instead of returning
one result per input line. -/
theorem c9_counterexample :
    analyze_user_lines [UserLine.mk "Eagles" 0 none none]
      (Consensus.mk "h2h"
        [ConsensusOutcome.mk "Eagles" (-110) none (4/5) none,
         ConsensusOutcome.mk "Cowboys" (-110) none (1/5) none] none [])
      100 1000 1 = none := by
  have h1 : canonicalize_team "Eagles" = "eagles" := by decide
  have h3 : ("h2h" : String) ≠ "totals" := by decide
  have h4 : (("eagles" : String) == "eagles") = true := by decide
  have h6 : ("eagles" : String).isEmpty = false := by decide
  norm_num [analyze_user_lines, analyze_loop, resolve_outcome, first_stage_match,
    match_line_to_outcome, expected_value, kelly_fraction, american_to_decimal,
    h1, h3, h4, h6]

/-! C8: the deduplication behaviour of the free-text parser. -/

theorem dedup_unique_go (ls : List UserLine) :
    ∀ acc : List ((String × ℚ) × UserLine),
      ((ls.foldl (fun unique line =>
          if unique.any (fun kv => kv.1 == user_line_key line) then unique
          else unique ++ [(user_line_key line, line)]) acc).map Prod.snd) =
        acc.map Prod.snd ++
          keep_first (ls.filter
            (fun y => !(acc.any (fun kv => kv.1 == user_line_key y)))) := by
  induction ls with
  | nil =>
    intro acc
    simp [keep_first]
  | cons x xs ih =>
    intro acc
    simp only [List.foldl_cons, List.filter_cons]
    by_cases hx : acc.any (fun kv => kv.1 == user_line_key x) = true
    · rw [if_pos hx, hx]
      simp only [Bool.not_true, Bool.false_eq_true, if_false]
      exact ih acc
    · rw [if_neg hx]
      rw [Bool.not_eq_true] at hx
      rw [hx]
      simp only [Bool.not_false, if_true]
      rw [ih (acc ++ [(user_line_key x, x)])]
      rw [keep_first]
      simp only [List.map_append, List.map_cons, List.map_nil, List.append_assoc,
        List.cons_append, List.nil_append, List.singleton_append]
      congr 2
      rw [List.filter_filter]
      have hpred : (fun y => !(acc ++ [(user_line_key x, x)]).any
            fun kv => kv.1 == user_line_key y) =
          (fun a => (!(user_line_key x == user_line_key a)) &&
            (!(acc.any fun kv => kv.1 == user_line_key a))) := by
        funext y
        simp only [List.any_append, List.any_cons, List.any_nil, Bool.or_false,
          Bool.not_or]
        rw [Bool.and_comm]
      rw [hpred]

theorem dedup_unique_eq_keep_first (ls : List UserLine) :
    dedup_unique ls = keep_first ls := by
  have h := dedup_unique_go ls []
  simpa [dedup_unique] using h

theorem keep_first_sublist : ∀ ls : List UserLine, (keep_first ls).Sublist ls
  | [] => by simp [keep_first]
  | x :: xs => by
    rw [keep_first]
    exact List.Sublist.cons₂ _
      ((keep_first_sublist (xs.filter _)).trans (List.filter_sublist xs))
termination_by ls => ls.length
decreasing_by
  simp_wf
  exact Nat.lt_succ_of_le (List.length_filter_le _ _)

theorem keep_first_pairwise : ∀ ls : List UserLine,
    (keep_first ls).Pairwise (fun a b => user_line_key a ≠ user_line_key b)
  | [] => by simp [keep_first]
  | x :: xs => by
    rw [keep_first]
    refine List.Pairwise.cons ?_ (keep_first_pairwise _)
    intro b hb
    have hb2 := (keep_first_sublist _).subset hb
    have := (List.mem_filter.mp hb2).2
    simpa using this
termination_by ls => ls.length
decreasing_by
  simp_wf
  exact Nat.lt_succ_of_le (List.length_filter_le _ _)

theorem keep_first_complete : ∀ ls : List UserLine, ∀ y ∈ ls,
    ∃ z ∈ keep_first ls, user_line_key z = user_line_key y
  | [] => by simp
  | x :: xs => by
    intro y hy
    rw [keep_first]
    rcases List.mem_cons.mp hy with heq | hxs
    · exact ⟨x, List.mem_cons_self _ _, by rw [heq]⟩
    · by_cases hk : (user_line_key x == user_line_key y) = true
      · exact ⟨x, List.mem_cons_self _ _, by simpa using hk⟩
      · have hyf : y ∈ xs.filter (fun y2 => !(user_line_key x == user_line_key y2)) :=
          List.mem_filter.mpr ⟨hxs, by simp [hk]⟩
        obtain ⟨z, hz, hkey⟩ := keep_first_complete _ y hyf
        exact ⟨z, List.mem_cons_of_mem _ hz, hkey⟩
termination_by ls => ls.length
decreasing_by
  simp_wf
  exact Nat.lt_succ_of_le (List.length_filter_le _ _)

/-- C8: the free-text parser deduplicates the extracted lines by the pair
(lowercased label, odds): when nothing at all is extracted it fails
(`NoLinesFoundError`, modelled as `none`); otherwise it returns exactly
the first occurrence of each key — an order-preserving sublist of the
extraction in which no two entries share a key and every extracted key
is represented. -/
theorem c8_text_parser_dedup (text : String) :
    (extract_lines text = [] → parse_lines_from_text text = none) ∧
    (extract_lines text ≠ [] →
      parse_lines_from_text text = some (keep_first (extract_lines text)) ∧
      (keep_first (extract_lines text)).Sublist (extract_lines text) ∧
      (keep_first (extract_lines text)).Pairwise
        (fun a b => user_line_key a ≠ user_line_key b) ∧
      ∀ y ∈ extract_lines text, ∃ z ∈ keep_first (extract_lines text),
        user_line_key z = user_line_key y) := by
  constructor
  · intro h
    simp [parse_lines_from_text, h, dedup_unique]
  · intro h
    refine ⟨?_, keep_first_sublist _, keep_first_pairwise _, keep_first_complete _⟩
    have hd := dedup_unique_eq_keep_first (extract_lines text)
    rcases hext : extract_lines text with _ | ⟨x, xs⟩
    · exact absurd hext h
    · rw [hext] at hd
      simp only [parse_lines_from_text, hext, hd, keep_first]
      rfl

/-- C8 witness: a text with no extractable line fails, and the repeated
pair `Eagles -110` is deduplicated to the first occurrences. -/
theorem c8_witness :
    parse_lines_from_text "no odds in this text" = none ∧
    parse_lines_from_text "Eagles -110\nEagles -110" =
      some (keep_first (extract_lines "Eagles -110\nEagles -110")) :=
  ⟨(c8_text_parser_dedup "no odds in this text").1 (by decide),
   ((c8_text_parser_dedup "Eagles -110\nEagles -110").2 (by decide)).1⟩
